import Mathlib

/-!
Shallow embedding of the core of the `uarc/asm` configurable assembler
(`src/parse.rs`, with configuration field shapes from `src/config.rs`).

Machine integers are modeled as `Nat` (for `u64`/`usize`, with explicit
`% 2 ^ 64` where `u64` arithmetic wraps) and `Int` (for `isize`/`i64`/signed
shift amounts).  Rust panics become `Except String`.  Vector indexing uses
`List.getD`/`List.set`; all claims are exercised in bounds, matching the
bounds established by `Config::consistency_check`.  A shift amount at or
above the word width is a Rust overflow; the embedding uses the release
semantics, masking the amount modulo 64 (debug builds panic there).
-/

namespace Asm

/-- 2^64, the modulus of `u64` arithmetic. -/
def U64 : Nat := 2 ^ 64

/-- Embeds `fn shift_left_or_right(a: u64, shift: i32) -> u64` from
`src/parse.rs` lines 38-44: negative shift is a logical right shift by
`-shift`, otherwise a left shift by `shift`, at `u64` width.  A shift amount
at or above the word width is a Rust overflow: release builds mask the
amount modulo 64 (embedded here); debug builds panic there. -/
def shift_left_or_right (a : Nat) (shift : Int) : Nat :=
  if shift < 0 then a >>> ((-shift).toNat % 64)
  else (a <<< (shift.toNat % 64)) % U64

/-- Reinterpret a signed value as `u64` (two's complement), as in
`(x as isize + off) as u64` and `transmute(pval)`. -/
def asU64 (i : Int) : Nat := (i % (2 ^ 64 : Int)).toNat

/-- Reinterpret a `u64` value as signed (`shiftval as isize` on a 64-bit
host), two's complement. -/
def asI64 (n : Nat) : Int :=
  if n < 2 ^ 63 then (n : Int) else (n : Int) - 2 ^ 64

/-- Read `l[i][j]`, defaulting to `0`/`[]` out of bounds. -/
def getElem2 (l : List (List Nat)) (i j : Nat) : Nat :=
  (l.getD i []).getD j 0

/-- Replace `l[i]` by `f l[i]` (no-op out of bounds). -/
def modifyAt (l : List (List Nat)) (i : Nat) (f : List Nat → List Nat) :
    List (List Nat) :=
  l.set i (f (l.getD i []))

/-- Replace `l[i][j]` by `f l[i][j]`. -/
def modify2 (l : List (List Nat)) (i j : Nat) (f : Nat → Nat) :
    List (List Nat) :=
  modifyAt l i (fun v => v.set j (f (v.getD j 0)))

/-- Embeds `struct Replacement` from `src/parse.rs` lines 12-27. -/
structure Replacement where
  line : Nat
  shift : Int
  add_segment : Nat
  index : Nat
  tag : String
  pos_segment : Nat
  pos_offset : Int
  deriving Repr, DecidableEq

/-- Embeds the mutable fields of `struct Parser` from `src/parse.rs` lines
29-36.  The `HashMap<String, Vec<usize>>` of tags is modeled as an
association list with first-key-wins lookup. -/
structure ParserState where
  segments : List (List Nat)
  tags : List (String × List Nat)
  plus_tags : List (Nat × List Nat)
  minus_tags : List (Nat × List Nat)
  replacements : List Replacement
  deriving Repr, DecidableEq

/-- The current per-segment length vector,
`self.segments.iter().map(|v| v.len()).collect()`. -/
def segLengths (segs : List (List Nat)) : List Nat := segs.map List.length

/-- `s.chars().all(|c| c == '+')` (true on the empty string). -/
def isAllPlus (s : String) : Bool := s.toList.all (fun c => c == '+')

/-- `s.chars().all(|c| c == '-')` (true on the empty string). -/
def isAllMinus (s : String) : Bool := s.toList.all (fun c => c == '-')

/-- Lookup in the association-list model of the tag `HashMap`. -/
def lookupTag (tags : List (String × List Nat)) (name : String) :
    Option (List Nat) :=
  (tags.find? (fun e => e.1 == name)).map (fun e => e.2)

/-- Embeds the body of `attempt_tag_create` (`src/parse.rs` lines 192-227)
after the tag-create regex has matched, `s` being the string captured by
capture group 1: an all-`+` name appends `(s.len(), lengths)` to
`plus_tags`, an all-`-` name to `minus_tags`, any other name is inserted
into the tag map, where a duplicate is fatal. -/
def tagCreate (s : String) (line : Nat) (st : ParserState) :
    Except String ParserState :=
  if isAllPlus s then
    .ok { st with plus_tags := st.plus_tags ++ [(s.length, segLengths st.segments)] }
  else if isAllMinus s then
    .ok { st with minus_tags := st.minus_tags ++ [(s.length, segLengths st.segments)] }
  else
    match lookupTag st.tags s with
    | some _ => .error ("Attempted to create duplicate tag " ++ s ++ " on line " ++ toString line)
    | none => .ok { st with tags := st.tags ++ [(s, segLengths st.segments)] }

/-- The patch value of `link`:
`shift_left_or_right((positions[r.pos_segment] as isize + r.pos_offset) as u64, r.shift)`. -/
def patchValue (positions : List Nat) (r : Replacement) : Nat :=
  shift_left_or_right (asU64 ((positions.getD r.pos_segment 0 : Int) + r.pos_offset)) r.shift

/-- `self.segments[r.add_segment][r.index] += patch` with `u64` wraparound. -/
def applyPatch (segs : List (List Nat)) (r : Replacement) (positions : List Nat) :
    List (List Nat) :=
  modify2 segs r.add_segment r.index (fun cur => (cur + patchValue positions r) % U64)

/-- The predicate of the inner `plus_tags` scan of `link` (line 70):
same number of pluses and `e.1[r.add_segment] >= r.index`. -/
def plusHit (r : Replacement) (e : Nat × List Nat) : Bool :=
  e.1 == r.tag.length && decide (r.index ≤ e.2.getD r.add_segment 0)

/-- The predicate of the inner `minus_tags` scan of `link` (line 82):
same number of minuses and `e.1[r.add_segment] < r.index`. -/
def minusHit (r : Replacement) (e : Nat × List Nat) : Bool :=
  e.1 == r.tag.length && decide (e.2.getD r.add_segment 0 < r.index)

/-- Forward scan of `plus_tags` (`src/parse.rs` lines 68-76): the first
entry matching `plusHit`. -/
def findPlusTag (plus_tags : List (Nat × List Nat)) (r : Replacement) :
    Option (Nat × List Nat) :=
  plus_tags.find? (plusHit r)

/-- Reverse scan of `minus_tags` (`src/parse.rs` lines 80-87): the first
entry of the reversed list matching `minusHit`. -/
def findMinusTag (minus_tags : List (Nat × List Nat)) (r : Replacement) :
    Option (Nat × List Nat) :=
  minus_tags.reverse.find? (minusHit r)

/-- Embeds the `'outer` loop of `pub fn link` (`src/parse.rs` lines 64-103).
For an all-`+` tag, the first forward `plus_tags` hit is patched in and then
`break 'outer` terminates the whole loop (the remaining replacements are not
processed); symmetrically for an all-`-` tag with the reverse `minus_tags`
scan.  A named tag is looked up in the map, patched, and the loop continues
with the next replacement.  A missed scan or lookup is fatal. -/
def linkGo (plus minus : List (Nat × List Nat)) (tags : List (String × List Nat)) :
    List Replacement → List (List Nat) → Except String (List (List Nat))
  | [], segs => .ok segs
  | r :: rest, segs =>
    if isAllPlus r.tag then
      match findPlusTag plus r with
      | some e => .ok (applyPatch segs r e.2)
      | none => .error ("Error: Forward + tag used on line " ++ toString r.line ++ " was never defined.")
    else if isAllMinus r.tag then
      match findMinusTag minus r with
      | some e => .ok (applyPatch segs r e.2)
      | none => .error ("Error: Forward + tag used on line " ++ toString r.line ++ " was never defined.")
    else
      match lookupTag tags r.tag with
      | some pos => linkGo plus minus tags rest (applyPatch segs r pos)
      | none => .error ("Error: Tag " ++ r.tag ++ " used on line " ++ toString r.line ++ " never defined.")

/-- `pub fn link(&mut self)`: run `linkGo` over the pending replacements,
updating the segments. -/
def link (st : ParserState) : Except String ParserState :=
  match linkGo st.plus_tags st.minus_tags st.tags st.replacements st.segments with
  | .ok segs => .ok { st with segments := segs }
  | .error e => .error e

/-- Embeds `struct NumFeedback` from `src/config.rs` lines 31-51, plus the
`align` flag read by `src/parse.rs` line 292.  The shift amount is signed,
as consumed by `shift_left_or_right`. -/
structure NumFeedback where
  negate : Bool := false
  shift : Int := 0
  segment : Nat := 0
  index : Nat := 0
  fill : Bool := false
  fill_offset : Int := -1
  align : Bool := false
  deriving Repr, DecidableEq

/-- Embeds `struct TagFeedback` from `src/config.rs` lines 65-82. -/
structure TagFeedback where
  from_segment : Nat
  relative : Bool := false
  shift : Int := 0
  add_segment : Nat
  add_index : Nat
  offset : Int := 0
  deriving Repr, DecidableEq

/-- Embeds `enum Capture` as consumed by `attempt_rules`
(`src/parse.rs` lines 247-307): `Tag`, `Str`, and `Num` variants. -/
inductive CaptureDesc where
  | Tag (feedbacks : List TagFeedback)
  | Str (add_segment : Nat)
  | Num (base : Nat) (feedbacks : List NumFeedback)
  deriving Repr, DecidableEq

/-- The rule data consumed by `attempt_rules` once its regex has matched:
`segment_values`, `self_references` and `captures` of `struct Rule`
(`src/config.rs` lines 97-110). -/
structure RuleDesc where
  segment_values : List (List Nat)
  self_references : List TagFeedback := []
  captures : List CaptureDesc
  deriving Repr, DecidableEq

/-- One self-reference application (`src/parse.rs` lines 234-243):
`segvals[sr.add_segment][sr.add_index] += shift(len(segments[sr.from_segment]), sr.shift)`
with `u64` wraparound. -/
def applySelfRef (segs : List (List Nat)) (sv : List (List Nat))
    (sr : TagFeedback) : List (List Nat) :=
  modify2 sv sr.add_segment sr.add_index
    (fun c => (c + shift_left_or_right ((segs.getD sr.from_segment []).length) sr.shift) % U64)

/-- The local template after cloning `segment_values` and applying every
self-reference (`src/parse.rs` lines 233-243). -/
def initialSegvals (rule : RuleDesc) (segs : List (List Nat)) :
    List (List Nat) :=
  rule.self_references.foldl (applySelfRef segs) rule.segment_values

/-- The `Replacement` pushed for one `TagFeedback` of a Tag capture
(`src/parse.rs` lines 250-264): `index` is the current length of the add
segment plus `add_index`; `pos_offset` is `offset` minus the current length
of the from segment when `relative`, else `offset`. -/
def tagReplacement (line : Nat) (capStr : String) (segs : List (List Nat))
    (f : TagFeedback) : Replacement :=
  { line := line
    shift := f.shift
    add_segment := f.add_segment
    index := (segs.getD f.add_segment []).length + f.add_index
    tag := capStr
    pos_segment := f.from_segment
    pos_offset :=
      if f.relative then f.offset - ((segs.getD f.from_segment []).length : Int)
      else f.offset }

/-- Str capture (`src/parse.rs` lines 267-271): push each character's code
point onto `segments[add_segment]`. -/
def pushChars (segs : List (List Nat)) (seg : Nat) (cs : List Char) :
    List (List Nat) :=
  modifyAt segs seg (fun v => v ++ cs.map (fun c => c.toNat))

/-- The numeric value of one digit character for `from_str_radix`. -/
def digitVal (c : Char) : Option Nat :=
  if '0' ≤ c ∧ c ≤ '9' then some (c.toNat - 48)
  else if 'a' ≤ c ∧ c ≤ 'z' then some (c.toNat - 87)
  else if 'A' ≤ c ∧ c ≤ 'Z' then some (c.toNat - 55)
  else none

/-- Accumulate digits in the given base; `none` when a character is not a
digit of the base or the digit list is empty. -/
def parseDigits (base : Nat) : List Char → Option Nat
  | [] => none
  | cs => cs.foldlM (fun acc c =>
      match digitVal c with
      | some d => if d < base then some (acc * base + d) else none
      | none => none) 0

/-- Embeds `i64::from_str_radix(cap_string, base)`: an optional leading
sign, then base-`base` digits, range-checked against `i64`. -/
def parseRadix (base : Nat) (s : String) : Option Int :=
  match s.toList with
  | '-' :: cs =>
    match parseDigits base cs with
    | some v => if (v : Int) ≤ 2 ^ 63 then some (-(v : Int)) else none
    | none => none
  | '+' :: cs =>
    match parseDigits base cs with
    | some v => if (v : Int) < 2 ^ 63 then some (v : Int) else none
    | none => none
  | cs =>
    match parseDigits base cs with
    | some v => if (v : Int) < 2 ^ 63 then some (v : Int) else none
    | none => none

/-- The shifted-and-possibly-negated feedback value
(`src/parse.rs` lines 283-286): `shiftval = shift(val, f.shift)`, then
`!shiftval + 1` at `u64` width when `f.negate`. -/
def numShiftVal (f : NumFeedback) (val : Nat) : Nat :=
  let s := shift_left_or_right val f.shift
  if f.negate then (U64 - s) % U64 else s

/-- One `NumFeedback` application (`src/parse.rs` lines 282-306) on the
pair (local template, segments).  For a fill, the base is
`segvals[f.segment][f.index]`, the count is `shiftval as isize + f.fill_offset`
(fatal when negative); `align` pads `segments[f.segment]` up to the count,
otherwise the base is pushed count times; in both fill modes the last
element of `segvals[f.segment]` is then popped.  Without fill,
`segvals[f.segment][f.index] += shiftval` with wraparound. -/
def applyNumFeedback (f : NumFeedback) (val : Nat)
    (p : List (List Nat) × List (List Nat)) :
    Except String (List (List Nat) × List (List Nat)) :=
  let sv := p.1
  let segs := p.2
  let shiftval := numShiftVal f val
  if f.fill then
    let baseval := getElem2 sv f.segment f.index
    let fill_amount : Int := asI64 shiftval + f.fill_offset
    if fill_amount < 0 then
      .error "Error: Got a negative fill amount!"
    else if f.align then
      .ok (modifyAt sv f.segment List.dropLast,
           modifyAt segs f.segment
             (fun v => v ++ List.replicate (fill_amount.toNat - v.length) baseval))
    else
      .ok (modifyAt sv f.segment List.dropLast,
           modifyAt segs f.segment
             (fun v => v ++ List.replicate fill_amount.toNat baseval))
  else
    .ok (modify2 sv f.segment f.index (fun c => (c + shiftval) % U64), segs)

/-- Fold `applyNumFeedback` over the feedback list of a Num capture. -/
def applyNumFeedbacks (val : Nat) (fbs : List NumFeedback)
    (p : List (List Nat) × List (List Nat)) :
    Except String (List (List Nat) × List (List Nat)) :=
  fbs.foldlM (fun q f => applyNumFeedback f val q) p

/-- One capture-group dispatch of `attempt_rules`
(`src/parse.rs` lines 244-308), acting on the local template and the parser
state.  An error carries the state at the abort point. -/
def processCapture (line : Nat) (c : CaptureDesc) (capStr : String)
    (sv : List (List Nat)) (st : ParserState) :
    Except (String × ParserState) (List (List Nat) × ParserState) :=
  match c with
  | .Tag fbs =>
    .ok (sv, { st with
      replacements := st.replacements ++ fbs.map (tagReplacement line capStr st.segments) })
  | .Str seg =>
    .ok (sv, { st with segments := pushChars st.segments seg capStr.toList })
  | .Num base fbs =>
    match parseRadix base capStr with
    | none =>
      .error ("Error: Failed to parse captured string " ++ capStr, st)
    | some pval =>
      match applyNumFeedbacks (asU64 pval) fbs (sv, st.segments) with
      | .ok (sv2, segs2) => .ok (sv2, { st with segments := segs2 })
      | .error e => .error (e, st)

/-- Dispatch every capture group in order, threading the local template and
the state. -/
def processCaptures (line : Nat) :
    List (CaptureDesc × String) → List (List Nat) → ParserState →
    Except (String × ParserState) (List (List Nat) × ParserState)
  | [], sv, st => .ok (sv, st)
  | (c, s) :: rest, sv, st =>
    match processCapture line c s sv st with
    | .ok (sv2, st2) => processCaptures line rest sv2 st2
    | .error e => .error e

/-- The commit step (`src/parse.rs` lines 310-312):
`for (segvec, segment) in segvals.iter_mut().zip(self.segments.iter_mut()) { segment.append(segvec) }`;
segments beyond the zip are left unchanged. -/
def commitLocals : List (List Nat) → List (List Nat) → List (List Nat)
  | segs, [] => segs
  | [], _ => []
  | seg :: segs, v :: vs => (seg ++ v) :: commitLocals segs vs

/-- The body of `attempt_rules` for a matched rule
(`src/parse.rs` lines 233-313): clone the template, apply self-references,
dispatch every capture with its captured string, then append the whole
remaining local template to the segments. -/
def fireRule (line : Nat) (rule : RuleDesc) (caps : List String)
    (st : ParserState) : Except (String × ParserState) ParserState :=
  match processCaptures line (rule.captures.zip caps) (initialSegvals rule st.segments) st with
  | .ok (sv, st2) => .ok { st2 with segments := commitLocals st2.segments sv }
  | .error e => .error e

/-- The 8-byte little-endian encoding of a `u64` value,
`LittleEndian::write_u64` (byte 0 is least significant). -/
def leWrite (v : Nat) : List Nat :=
  [v % 256, v / 256 % 256, v / 256 ^ 2 % 256, v / 256 ^ 3 % 256,
   v / 256 ^ 4 % 256, v / 256 ^ 5 % 256, v / 256 ^ 6 % 256, v / 256 ^ 7 % 256]

/-- The 8-byte big-endian encoding of a `u64` value,
`BigEndian::write_u64` (byte 0 is most significant). -/
def beWrite (v : Nat) : List Nat := (leWrite v).reverse

/-- The LittleEndian output branch (`src/parse.rs` lines 129-141): per word,
write `bytes[0..width]` of the little-endian encoding. -/
def outputLittleEndian (width : Nat) (vals : List Nat) : List Nat :=
  vals.flatMap (fun v => (leWrite v).take width)

/-- The BigEndian output branch (`src/parse.rs` lines 142-154): per word,
write `bytes[0..width]` of the big-endian encoding. -/
def outputBigEndian (width : Nat) (vals : List Nat) : List Nat :=
  vals.flatMap (fun v => (beWrite v).take width)

/-- The bytes HexList selects per word (`src/parse.rs` line 162):
`bytes[(8 - width)..8]` of the big-endian encoding. -/
def hexListSelected (width : Nat) (v : Nat) : List Nat :=
  (beWrite v).drop (8 - width)

/-- One uppercase hexadecimal digit. -/
def hexDigit (n : Nat) : Char :=
  if n < 10 then Char.ofNat (48 + n) else Char.ofNat (55 + n)

/-- A byte rendered as two uppercase hexadecimal digits (`format("02X", b)`). -/
def byteHex (b : Nat) : List Char := [hexDigit (b / 16), hexDigit (b % 16)]

/-- The HexList output branch (`src/parse.rs` lines 155-173): per word,
the selected bytes in uppercase two-digit hex, then a newline. -/
def outputHexList (width : Nat) (vals : List Nat) : List Char :=
  vals.flatMap (fun v => (hexListSelected width v).flatMap byteHex ++ ['\n'])

/-- A small regular-expression syntax, modeling the patterns supplied in the
configuration to `attempt_tag_create` and `attempt_rules`. -/
inductive Rx where
  | emp
  | eps
  | chr (c : Char)
  | seq (a b : Rx)
  | alt (a b : Rx)
  | star (a : Rx)
  deriving Repr, DecidableEq

/-- Does the expression accept the empty string? -/
def Rx.nullable : Rx → Bool
  | .emp => false
  | .eps => true
  | .chr _ => false
  | .seq a b => a.nullable && b.nullable
  | .alt a b => a.nullable || b.nullable
  | .star _ => true

/-- Brzozowski derivative with respect to one character. -/
def Rx.deriv : Rx → Char → Rx
  | .emp, _ => .emp
  | .eps, _ => .emp
  | .chr c, d => if c == d then .eps else .emp
  | .seq a b, d =>
    if a.nullable then .alt (.seq (a.deriv d) b) (b.deriv d)
    else .seq (a.deriv d) b
  | .alt a b, d => .alt (a.deriv d) (b.deriv d)
  | .star a, d => .seq (a.deriv d) (.star a)

/-- Whole-string match of an expression against a character list. -/
def rmatch (r : Rx) : List Char → Bool
  | [] => r.nullable
  | c :: cs => rmatch (r.deriv c) cs

/-- Embeds the acceptance condition of `Regex::captures(segment)` as used by
`attempt_tag_create` (line 193) and `attempt_rules` (line 232): the regex
crate searches for a match anywhere inside the token, so a pattern is
accepted exactly when it matches some contiguous substring. -/
def searchAccepts (r : Rx) (s : List Char) : Bool :=
  s.tails.any (fun t => (List.range (t.length + 1)).any (fun n => rmatch r (t.take n)))

/-- The serialization the spec prescribes for BigEndian output: per word the
least-significant `w` bytes of the 8-byte big-endian encoding, i.e. bytes
`[8-w..8]`. -/
def outputBigEndianSpec (width : Nat) (vals : List Nat) : List Nat :=
  vals.flatMap (fun v => (beWrite v).drop (8 - width))

/-- The shift law as the spec states it: multiplication by `2 ^ s` at 64-bit
width for a nonnegative shift, division by `2 ^ (-s)` for a negative one. -/
def shiftSpec (x : Nat) (s : Int) : Nat :=
  if 0 ≤ s then (x * 2 ^ s.toNat) % U64 else x / 2 ^ (-s).toNat

/-! ### Helper lemmas -/

theorem getD_set_self (l : List Nat) (i : Nat) (x : Nat) (h : i < l.length) :
    (l.set i x).getD i 0 = x := by
  simp [List.getD, List.getElem?_set_self, h]

theorem getD_set_ne (l : List Nat) (i j : Nat) (x : Nat) (h : j ≠ i) :
    (l.set i x).getD j 0 = l.getD j 0 := by
  simp [List.getD, List.getElem?_set_ne (by omega : i ≠ j)]

theorem getDL_set_self (l : List (List Nat)) (i : Nat) (x : List Nat)
    (h : i < l.length) : (l.set i x).getD i [] = x := by
  simp [List.getD, List.getElem?_set_self, h]

theorem getDL_set_ne (l : List (List Nat)) (i j : Nat) (x : List Nat)
    (h : j ≠ i) : (l.set i x).getD j [] = l.getD j [] := by
  simp [List.getD, List.getElem?_set_ne (by omega : i ≠ j)]

theorem modifyAt_getD_self (l : List (List Nat)) (i : Nat)
    (f : List Nat → List Nat) (h : i < l.length) :
    (modifyAt l i f).getD i [] = f (l.getD i []) :=
  getDL_set_self l i _ h

theorem modifyAt_getD_ne (l : List (List Nat)) (i j : Nat)
    (f : List Nat → List Nat) (h : j ≠ i) :
    (modifyAt l i f).getD j [] = l.getD j [] :=
  getDL_set_ne l i j _ h

theorem commitLocals_getD (segs : List (List Nat)) (sv : List (List Nat))
    (i : Nat) (h : i < segs.length) :
    (commitLocals segs sv).getD i [] = segs.getD i [] ++ sv.getD i [] := by
  induction segs generalizing sv i with
  | nil => simp at h
  | cons seg segs ih =>
    cases sv with
    | nil => simp [commitLocals, List.getD]
    | cons v vs =>
      cases i with
      | zero => simp [commitLocals, List.getD]
      | succ n =>
        simp only [commitLocals, List.getD_cons_succ]
        exact ih vs n (by simpa using h)

theorem getLast?_cons_or (a : α) (l : List α) :
    (a :: l).getLast? = (l.getLast?).or (some a) := by
  induction l with
  | nil => rfl
  | cons b t _ =>
    rw [List.getLast?_cons_cons, Option.or_of_isSome (List.getLast?_isSome.mpr (by simp))]

theorem find?_reverse_eq_filter_getLast? (p : α → Bool) (l : List α) :
    l.reverse.find? p = (l.filter p).getLast? := by
  induction l with
  | nil => rfl
  | cons a t ih =>
    rw [List.reverse_cons, List.find?_append, ih, List.filter_cons]
    by_cases h : p a
    · simp only [h, if_pos]
      rw [getLast?_cons_or]
      simp [List.find?, h]
    · simp only [h]
      simp [List.find?, h]

/-! ### Claims -/

/-- C1: the claim says `link` processes every pending replacement, resolving
each against the final tag state.  The code instead executes `break 'outer`
after the first successful `+`/`-` resolution, dropping every later
replacement.  Here both replacements reference an existing `+` tag (the
second hit is exhibited by `plusHit`), the claim-compliant result would
patch both words to `2`, yet `link` patches only `segments[0][0]` and leaves
`segments[0][1]` untouched. -/
theorem link_drops_later_replacements :
    link { segments := [[0, 0]], tags := [], plus_tags := [(1, [2])], minus_tags := [],
           replacements := [⟨1, 0, 0, 0, "+", 0, 0⟩, ⟨1, 0, 0, 1, "+", 0, 0⟩] } =
      .ok { segments := [[2, 0]], tags := [], plus_tags := [(1, [2])], minus_tags := [],
            replacements := [⟨1, 0, 0, 0, "+", 0, 0⟩, ⟨1, 0, 0, 1, "+", 0, 0⟩] } ∧
    plusHit ⟨1, 0, 0, 1, "+", 0, 0⟩ (1, [2]) = true := by
  constructor
  · rfl
  · rfl

/-- C2: the claim says the BigEndian branch writes the least-significant
`w` bytes, bytes `[8-w..8]` of the big-endian encoding
(`outputBigEndianSpec`).  The code writes `bytes[0..width]`, the
most-significant bytes: with width 1 the word `1` serializes to `0x00`
where the claim requires `0x01`. -/
theorem bigendian_writes_high_bytes :
    outputBigEndian 1 [1] = [0] ∧ outputBigEndianSpec 1 [1] = [1] ∧
    outputBigEndian 1 [1] ≠ outputBigEndianSpec 1 [1] := by
  refine ⟨rfl, rfl, ?_⟩
  decide

/-- C3: the claim says HexList selects per word the same byte sequence that
BigEndian writes.  HexList selects `bytes[(8-width)..8]` (least-significant
bytes, correctly formatted as uppercase hex with a trailing newline), but
the BigEndian branch writes `bytes[0..width]`: with width 1 the word `1`
gives selected byte `0x01` against written byte `0x00`. -/
theorem hexlist_bytes_differ_from_bigendian :
    hexListSelected 1 1 = [1] ∧ outputBigEndian 1 [1] = [0] ∧
    hexListSelected 1 1 ≠ outputBigEndian 1 [1] ∧
    outputHexList 2 [171] = ['0', '0', 'A', 'B', '\n'] := by
  refine ⟨rfl, rfl, ?_, rfl⟩
  decide

/-- C6 counterexample: the claim states the shift law for every signed
shift amount, but at amount 64 the program's shift overflows: release
builds mask the amount modulo 64, so `shift_left_or_right 1 64` returns `1`
(debug builds panic there), while the claim's 64-bit wraparound formula
`shiftSpec` gives `(1 * 2 ^ 64) % 2 ^ 64 = 0`. -/
theorem shift_law_fails_at_64 :
    shift_left_or_right 1 64 = 1 ∧ shiftSpec 1 64 = 0 ∧
    shift_left_or_right 1 64 ≠ shiftSpec 1 64 := by
  refine ⟨rfl, rfl, ?_⟩
  decide

/-- C6 amended: for every shift amount strictly between −64 and 64 — the
range on which the Rust shift is defined without overflow —
`shift_left_or_right x s` equals `x` multiplied by `2 ^ s` at 64-bit
unsigned width (wraparound) when `s ≥ 0`, and `x` divided by `2 ^ (-s)`
when `s < 0`, which is `shiftSpec`, the formula of the spec. -/
theorem shift_law (x : Nat) (s : Int) (hlo : -64 < s) (hhi : s < 64) :
    shift_left_or_right x s = shiftSpec x s := by
  unfold shift_left_or_right shiftSpec
  rcases lt_or_ge s 0 with h | h
  · rw [if_pos h, if_neg (by omega),
        Nat.mod_eq_of_lt (by omega : (-s).toNat < 64), Nat.shiftRight_eq_div_pow]
  · rw [if_neg (by omega), if_pos h,
        Nat.mod_eq_of_lt (by omega : s.toNat < 64), Nat.shiftLeft_eq]

/-- C6 witness: the amounts 2 and −1 lie in the valid range; the law gives
`5 << 2 = 20` and `5 >> 1 = 2`. -/
theorem shift_law_witness :
    ((-64 : Int) < 2 ∧ (2 : Int) < 64 ∧ shift_left_or_right 5 2 = shiftSpec 5 2) ∧
    ((-64 : Int) < -1 ∧ (-1 : Int) < 64 ∧ shift_left_or_right 5 (-1) = shiftSpec 5 (-1)) :=
  ⟨⟨by decide, by decide, shift_law 5 2 (by decide) (by decide)⟩,
   ⟨by decide, by decide, shift_law 5 (-1) (by decide) (by decide)⟩⟩

/-- C8: a Tag capture with feedbacks `fbs` only appends replacements: the
local template and the segments are unchanged (no word is pushed), and each
pushed replacement carries `index = len(segments[f.add_segment]) + f.add_index`
and `pos_offset = f.offset - len(segments[f.from_segment])` when
`f.relative`, else `f.offset`. -/
theorem tag_capture_replacement_fields (line : Nat) (fbs : List TagFeedback)
    (cap : String) (sv : List (List Nat)) (st : ParserState) :
    processCapture line (.Tag fbs) cap sv st =
      .ok (sv, { st with
        replacements := st.replacements ++ fbs.map (tagReplacement line cap st.segments) }) ∧
    ∀ f : TagFeedback,
      (tagReplacement line cap st.segments f).index =
        (st.segments.getD f.add_segment []).length + f.add_index ∧
      (tagReplacement line cap st.segments f).pos_offset =
        (if f.relative then f.offset - ((st.segments.getD f.from_segment []).length : Int)
         else f.offset) ∧
      (tagReplacement line cap st.segments f).tag = cap ∧
      (tagReplacement line cap st.segments f).add_segment = f.add_segment ∧
      (tagReplacement line cap st.segments f).shift = f.shift ∧
      (tagReplacement line cap st.segments f).pos_segment = f.from_segment :=
  ⟨rfl, fun _ => ⟨rfl, rfl, rfl, rfl, rfl, rfl⟩⟩

/-- C4 counterexample: the claim says a rule regex is accepted only if it
matches the entire token.  The acceptance condition of the code is an
unanchored regex search: the pattern `a` matches only the proper substring
`"a"` of the token `"ba"` (`rmatch` on the whole token is false), yet
`searchAccepts` — the embedded acceptance test of `Regex::captures` — accepts. -/
theorem substring_match_fires :
    searchAccepts (Rx.chr 'a') ("ba".toList) = true ∧
    rmatch (Rx.chr 'a') ("ba".toList) = false ∧
    rmatch (Rx.chr 'a') ("a".toList) = true := by
  refine ⟨rfl, rfl, rfl⟩

/-- C4 amended: a tag-create or rule regex is accepted exactly when it
matches some contiguous substring of the token (the unanchored search of
`Regex::captures`); whole-token coverage is not verified, so it holds only
for patterns anchored by the configuration author. -/
theorem search_accepts_iff_substring (r : Rx) (s : List Char) :
    searchAccepts r s = true ↔
      ∃ pre mid post, s = pre ++ mid ++ post ∧ rmatch r mid = true := by
  unfold searchAccepts
  rw [List.any_eq_true]
  constructor
  · rintro ⟨t, ht, h⟩
    rw [List.any_eq_true] at h
    obtain ⟨n, _, hm⟩ := h
    rw [List.mem_tails] at ht
    obtain ⟨pre, hpre⟩ := ht
    refine ⟨pre, t.take n, t.drop n, ?_, hm⟩
    rw [List.append_assoc, List.take_append_drop, hpre]
  · rintro ⟨pre, mid, post, hs, hm⟩
    refine ⟨mid ++ post, ?_, ?_⟩
    · rw [List.mem_tails]
      exact ⟨pre, by rw [hs, List.append_assoc]⟩
    · rw [List.any_eq_true]
      refine ⟨mid.length, ?_, ?_⟩
      · rw [List.mem_range]
        simp
        omega
      · rw [List.take_left]
        exact hm

/-- C9: for a replacement `r` whose tag is all `-` characters (and hence at
least one, excluding the all-`+` empty name), the linker's reverse scan of
`minus_tags` selects exactly the insertion-order-last entry whose run length
equals the tag length and whose recorded position in the add segment is
strictly below `r.index` (`minusHit`); when such an entry exists the patch
is applied to it, and when none exists `link` is fatal. -/
theorem minus_replacement_resolution (st : ParserState) (r : Replacement)
    (rest : List Replacement) (hrep : st.replacements = r :: rest)
    (hminus : isAllMinus r.tag = true) (hplus : isAllPlus r.tag = false) :
    findMinusTag st.minus_tags r = (st.minus_tags.filter (minusHit r)).getLast? ∧
    ((st.minus_tags.filter (minusHit r)).getLast? = none → ∃ msg, link st = .error msg) ∧
    (∀ e, (st.minus_tags.filter (minusHit r)).getLast? = some e →
      link st = .ok { st with segments := applyPatch st.segments r e.2 }) := by
  have hfind : findMinusTag st.minus_tags r = (st.minus_tags.filter (minusHit r)).getLast? :=
    find?_reverse_eq_filter_getLast? _ _
  have hstep : linkGo st.plus_tags st.minus_tags st.tags st.replacements st.segments =
      (match findMinusTag st.minus_tags r with
       | some e => .ok (applyPatch st.segments r e.2)
       | none => .error ("Error: Forward + tag used on line " ++ toString r.line ++
           " was never defined.")) := by
    rw [hrep]
    unfold linkGo
    rw [if_neg (by simp [hplus]), if_pos hminus]
  have hlink : link st =
      (match (st.minus_tags.filter (minusHit r)).getLast? with
       | some e => .ok { st with segments := applyPatch st.segments r e.2 }
       | none => .error ("Error: Forward + tag used on line " ++ toString r.line ++
           " was never defined.")) := by
    unfold link
    rw [hstep, hfind]
    cases (st.minus_tags.filter (minusHit r)).getLast? <;> rfl
  refine ⟨hfind, ?_, ?_⟩
  · intro hnone
    rw [hlink, hnone]
    exact ⟨_, rfl⟩
  · intro e he
    rw [hlink, he]

/-- C9 witness: three `-` tags of run length 1 at positions 0, 1 and 5; the
replacement at index 2 selects the entry at position 1 (the last one
strictly before index 2) and the patch adds 1 to `segments[0][2]`. -/
theorem minus_replacement_resolution_witness :
    link { segments := [[0, 0, 0]], tags := [], plus_tags := [],
           minus_tags := [(1, [0]), (1, [1]), (1, [5])],
           replacements := [⟨1, 0, 0, 2, "-", 0, 0⟩] } =
      .ok { segments := [[0, 0, 1]], tags := [], plus_tags := [],
            minus_tags := [(1, [0]), (1, [1]), (1, [5])],
            replacements := [⟨1, 0, 0, 2, "-", 0, 0⟩] } := by
  have h := (minus_replacement_resolution
      { segments := [[0, 0, 0]], tags := [], plus_tags := [],
        minus_tags := [(1, [0]), (1, [1]), (1, [5])],
        replacements := [⟨1, 0, 0, 2, "-", 0, 0⟩] }
      ⟨1, 0, 0, 2, "-", 0, 0⟩ [] rfl rfl rfl).2.2 (1, [1]) rfl
  rw [h]
  rfl

/-- C5 counterexample: the claim permits only fill-time fatals to leave a
partially emitted state.  Here a rule with a Str capture followed by a Num
capture (with no fill feedback at all) aborts on a number-parse failure
after the Str capture has already pushed two words: the error state's
segments differ from the initial segments, so a non-fill fatal also leaves
a partially emitted state. -/
theorem nonfill_fatal_mid_rule_emission :
    fireRule 1 { segment_values := [[7]], self_references := [],
                 captures := [.Str 0, .Num 10 []] } ["ab", "zz"]
        { segments := [[]], tags := [], plus_tags := [], minus_tags := [],
          replacements := [] } =
      .error ("Error: Failed to parse captured string zz",
        { segments := [[97, 98]], tags := [], plus_tags := [], minus_tags := [],
          replacements := [] }) ∧
    ([[97, 98]] : List (List Nat)) ≠ [[]] := by
  refine ⟨rfl, by decide⟩

/-- C5 amended: the commit of the local template is atomic — on a
successful firing every remaining `segvals` entry is appended in full in
the single commit step, and any fatal during capture processing aborts
before the commit, so no local template contribution is appended then.
However, Str-capture pushes and fill pushes mutate the segments
immediately, so a fatal of any kind occurring after such a push (not only a
fill-time fatal) leaves a partially emitted state. -/
theorem fire_rule_commit_atomic (line : Nat) (rule : RuleDesc)
    (caps : List String) (st : ParserState) :
    (∀ sv st2,
      processCaptures line (rule.captures.zip caps)
          (initialSegvals rule st.segments) st = .ok (sv, st2) →
      fireRule line rule caps st =
        .ok { st2 with segments := commitLocals st2.segments sv } ∧
      ∀ i, i < st2.segments.length →
        (commitLocals st2.segments sv).getD i [] =
          st2.segments.getD i [] ++ sv.getD i []) ∧
    (∀ e, processCaptures line (rule.captures.zip caps)
          (initialSegvals rule st.segments) st = .error e →
      fireRule line rule caps st = .error e) := by
  constructor
  · intro sv st2 h
    constructor
    · unfold fireRule
      rw [h]
    · intro i hi
      exact commitLocals_getD _ _ i hi
  · intro e h
    unfold fireRule
    rw [h]

/-- C5 witness: a rule with no captures fires on a one-word segment; the
commit appends its whole template `[7]` to the segment. -/
theorem fire_rule_commit_atomic_witness :
    fireRule 1 { segment_values := [[7]], self_references := [], captures := [] } []
        { segments := [[1]], tags := [], plus_tags := [], minus_tags := [],
          replacements := [] } =
      .ok { segments := [[1, 7]], tags := [], plus_tags := [], minus_tags := [],
            replacements := [] } ∧
    (commitLocals [[1]] [[7]]).getD 0 [] = [1] ++ [7] := by
  have h := (fire_rule_commit_atomic 1
      { segment_values := [[7]], self_references := [], captures := [] } []
      { segments := [[1]], tags := [], plus_tags := [], minus_tags := [],
        replacements := [] }).1
      [[7]]
      { segments := [[1]], tags := [], plus_tags := [], minus_tags := [],
        replacements := [] }
      rfl
  refine ⟨by rw [h.1]; rfl, ?_⟩
  simpa using h.2 0 (by decide)

/-- C7: a Num feedback with `fill = true` and `align = false` computes the
count `n` as the shifted (and possibly negated) value reinterpreted as
signed plus `fill_offset`; a negative count is fatal, and otherwise the
base `local[f.segment][f.index]` is pushed onto `segments[f.segment]`
exactly `n` times while every other segment is untouched, after which the
last element of `local[f.segment]` is popped (so the fill base slot is not
appended at commit) with every other local entry untouched. -/
theorem num_fill_no_align (f : NumFeedback) (val : Nat)
    (sv segs : List (List Nat)) (hf : f.fill = true) (ha : f.align = false)
    (hseg : f.segment < segs.length) (hsv : f.segment < sv.length) :
    (asI64 (numShiftVal f val) + f.fill_offset < 0 →
      applyNumFeedback f val (sv, segs) =
        .error "Error: Got a negative fill amount!") ∧
    (∀ n : Nat, asI64 (numShiftVal f val) + f.fill_offset = (n : Int) →
      ∃ sv2 segs2, applyNumFeedback f val (sv, segs) = .ok (sv2, segs2) ∧
        segs2.getD f.segment [] =
          segs.getD f.segment [] ++ List.replicate n (getElem2 sv f.segment f.index) ∧
        (∀ j, j ≠ f.segment → segs2.getD j [] = segs.getD j []) ∧
        sv2.getD f.segment [] = (sv.getD f.segment []).dropLast ∧
        (∀ j, j ≠ f.segment → sv2.getD j [] = sv.getD j [])) := by
  have e1 : applyNumFeedback f val (sv, segs) =
      (if asI64 (numShiftVal f val) + f.fill_offset < 0 then
        .error "Error: Got a negative fill amount!"
      else .ok (modifyAt sv f.segment List.dropLast,
           modifyAt segs f.segment
             (fun v => v ++ List.replicate (asI64 (numShiftVal f val) + f.fill_offset).toNat
                 (getElem2 sv f.segment f.index)))) := by
    unfold applyNumFeedback
    simp only [hf, ha, if_true, if_false, Bool.false_eq_true]
  constructor
  · intro hneg
    rw [e1, if_pos hneg]
  · intro n hn
    refine ⟨modifyAt sv f.segment List.dropLast,
      modifyAt segs f.segment
        (fun v => v ++ List.replicate (asI64 (numShiftVal f val) + f.fill_offset).toNat
            (getElem2 sv f.segment f.index)), ?_, ?_, ?_, ?_, ?_⟩
    · rw [e1, if_neg (by omega)]
    · rw [modifyAt_getD_self _ _ _ hseg, hn]
      simp
    · intro j hj
      exact modifyAt_getD_ne _ _ _ _ hj
    · exact modifyAt_getD_self _ _ _ hsv
    · intro j hj
      exact modifyAt_getD_ne _ _ _ _ hj

/-- C7 witness: fill with default offset −1 on captured value 3 and base 5:
the count is 2, the base is pushed twice onto the segment and the template
slot is popped. -/
theorem num_fill_no_align_witness :
    (∃ sv2 segs2,
      applyNumFeedback
          { negate := false, shift := 0, segment := 0, index := 0, fill := true,
            fill_offset := -1, align := false } 3 ([[5]], [[9]]) = .ok (sv2, segs2) ∧
      segs2.getD 0 [] = [9] ++ List.replicate 2 5 ∧
      sv2.getD 0 [] = List.dropLast [5]) ∧
    asI64 (numShiftVal
        { negate := false, shift := 0, segment := 0, index := 0, fill := true,
          fill_offset := -1, align := false } 3) + (-1) = (2 : Int) := by
  refine ⟨?_, by decide⟩
  obtain ⟨sv2, segs2, heq, hsegs, _, hpop, _⟩ :=
    (num_fill_no_align
      { negate := false, shift := 0, segment := 0, index := 0, fill := true,
        fill_offset := -1, align := false } 3 [[5]] [[9]]
      rfl rfl (by decide) (by decide)).2 2 (by decide)
  exact ⟨sv2, segs2, heq, by simpa using hsegs, by simpa using hpop⟩

/-- C10: a tag-create match whose capture group captured the empty string
does not fail: the empty name is all-`+` vacuously, so an entry of run
length `0` with the current per-segment length vector is appended to
`plus_tags`; the named-tag map (and `minus_tags`) are untouched. -/
theorem tag_create_empty_name (line : Nat) (st : ParserState) :
    tagCreate "" line st =
      .ok { st with plus_tags := st.plus_tags ++ [(0, segLengths st.segments)] } :=
  rfl

end Asm
